import Mathlib

/-!
Verification of the MCP stdio protocol client (`src/mcp/stdioClient.ts`) and
its session supervisor (`src/mcp/sessionManager.ts`).

The TypeScript source is shallowly embedded: JavaScript values parsed from
JSON are modelled by the inductive `Json`; the `Map` objects used for the
pending-call and pending-prompt registries are modelled by association lists
whose keys are unique (a `Map` cannot hold two entries with the same key);
the byte stream from the child process is a `List Char`; asynchronous
callbacks (promise continuations, timers) are identified by freshly
allocated natural-number tokens, and their invocations are recorded as
explicit event values.
-/

namespace OneFacile

/-- A JSON value as produced by `JSON.parse`.  Object fields are listed in
order with distinct keys (`JSON.parse` resolves duplicate keys before the
program ever sees the object). -/
inductive Json where
  | null
  | bool (b : Bool)
  | num (n : Int)
  | str (s : String)
  | arr (elems : List Json)
  | obj (fields : List (String × Json))

/-- Lookup in an association list keyed by strings; models `Map.get` (and
JavaScript property access on a parsed object). -/
def mapGet {α : Type} : List (String × α) → String → Option α
  | [], _ => none
  | (k1, v) :: t, k => if k1 = k then some v else mapGet t k

/-- Models `Map.set`: replace the value at an existing key in place,
otherwise append a new entry. -/
def mapSet {α : Type} : List (String × α) → String → α → List (String × α)
  | [], k, v => [(k, v)]
  | (k1, v1) :: t, k, v => if k1 = k then (k, v) :: t else (k1, v1) :: mapSet t k v

/-- Models `Map.delete`: remove the entry at the key, if any. -/
def mapDelete {α : Type} : List (String × α) → String → List (String × α)
  | [], _ => []
  | (k1, v1) :: t, k => if k1 = k then t else (k1, v1) :: mapDelete t k

/-- Key list of an association list. -/
def mapKeys {α : Type} (l : List (String × α)) : List String :=
  l.map Prod.fst

theorem mapGet_eq_some_mem {α : Type} {l : List (String × α)} {k : String} {v : α}
    (h : mapGet l k = some v) : (k, v) ∈ l := by
  induction l with
  | nil => simp [mapGet] at h
  | cons hd t ih =>
    obtain ⟨k1, v1⟩ := hd
    by_cases hk : k1 = k
    · subst hk
      rw [mapGet, if_pos rfl] at h
      injection h with h2
      subst h2
      exact List.mem_cons_self _ _
    · rw [mapGet, if_neg hk] at h
      exact List.mem_cons_of_mem _ (ih h)

theorem mapGet_eq_none_of_not_mem {α : Type} {l : List (String × α)} {k : String}
    (h : k ∉ mapKeys l) : mapGet l k = none := by
  induction l with
  | nil => rfl
  | cons hd t ih =>
    obtain ⟨k1, v1⟩ := hd
    simp only [mapKeys, List.map_cons, List.mem_cons, not_or] at h
    rw [mapGet, if_neg (fun hk => h.1 hk.symm)]
    exact ih h.2

theorem mapGet_of_mem {α : Type} {l : List (String × α)} {k : String} {v : α}
    (hN : (mapKeys l).Nodup) (h : (k, v) ∈ l) : mapGet l k = some v := by
  induction l with
  | nil => simp at h
  | cons hd t ih =>
    obtain ⟨k1, v1⟩ := hd
    simp only [mapKeys, List.map_cons, List.nodup_cons] at hN
    rcases List.mem_cons.mp h with heq | hmem
    · rw [Prod.mk.injEq] at heq
      obtain ⟨hk, hv⟩ := heq
      subst hk
      subst hv
      simp [mapGet]
    · have hk : k1 ≠ k := by
        intro hkk
        subst hkk
        exact hN.1 (List.mem_map.mpr ⟨(k1, v), hmem, rfl⟩)
      rw [mapGet, if_neg hk]
      exact ih hN.2 hmem

theorem mapDelete_sublist {α : Type} (l : List (String × α)) (k : String) :
    (mapDelete l k).Sublist l := by
  induction l with
  | nil => simp [mapDelete]
  | cons hd t ih =>
    obtain ⟨k1, v1⟩ := hd
    by_cases hk : k1 = k
    · rw [mapDelete, if_pos hk]
      exact List.sublist_cons_self _ _
    · rw [mapDelete, if_neg hk]
      exact List.Sublist.cons₂ _ ih

theorem mapGet_mapDelete_self {α : Type} {l : List (String × α)} {k : String}
    (hN : (mapKeys l).Nodup) : mapGet (mapDelete l k) k = none := by
  induction l with
  | nil => rfl
  | cons hd t ih =>
    obtain ⟨k1, v1⟩ := hd
    simp only [mapKeys, List.map_cons, List.nodup_cons] at hN
    by_cases hk : k1 = k
    · subst hk
      rw [mapDelete, if_pos rfl]
      exact mapGet_eq_none_of_not_mem hN.1
    · rw [mapDelete, if_neg hk, mapGet, if_neg hk]
      exact ih hN.2

theorem mapGet_mapDelete_ne {α : Type} (l : List (String × α)) {k j : String}
    (hne : j ≠ k) : mapGet (mapDelete l k) j = mapGet l j := by
  induction l with
  | nil => rfl
  | cons hd t ih =>
    obtain ⟨k1, v1⟩ := hd
    by_cases hk : k1 = k
    · subst hk
      rw [mapDelete, if_pos rfl, mapGet, if_neg (fun h => hne h.symm)]
    · by_cases hj : k1 = j
      · rw [mapDelete, if_neg hk, mapGet, if_pos hj, mapGet, if_pos hj]
      · rw [mapDelete, if_neg hk, mapGet, if_neg hj, mapGet, if_neg hj, ih]

theorem mapGet_mapSet_self {α : Type} (l : List (String × α)) (k : String) (v : α) :
    mapGet (mapSet l k v) k = some v := by
  induction l with
  | nil => simp [mapSet, mapGet]
  | cons hd t ih =>
    obtain ⟨k1, v1⟩ := hd
    by_cases hk : k1 = k
    · rw [mapSet, if_pos hk, mapGet, if_pos rfl]
    · rw [mapSet, if_neg hk, mapGet, if_neg hk]
      exact ih

theorem mapGet_mapSet_ne {α : Type} (l : List (String × α)) {k j : String} (v : α)
    (hne : j ≠ k) : mapGet (mapSet l k v) j = mapGet l j := by
  induction l with
  | nil =>
    simp only [mapSet, mapGet]
    exact if_neg (fun h => hne h.symm)
  | cons hd t ih =>
    obtain ⟨k1, v1⟩ := hd
    by_cases hk : k1 = k
    · subst hk
      rw [mapSet, if_pos rfl, mapGet, if_neg (fun h => hne h.symm), mapGet,
        if_neg (fun h => hne h.symm)]
    · by_cases hj : k1 = j
      · rw [mapSet, if_neg hk, mapGet, if_pos hj, mapGet, if_pos hj]
      · rw [mapSet, if_neg hk, mapGet, if_neg hj, mapGet, if_neg hj, ih]

theorem mapDelete_mapSet {α : Type} {l : List (String × α)} {k : String} (v : α)
    (hN : (mapKeys l).Nodup) : mapDelete (mapSet l k v) k = mapDelete l k := by
  induction l with
  | nil => simp [mapSet, mapDelete]
  | cons hd t ih =>
    obtain ⟨k1, v1⟩ := hd
    simp only [mapKeys, List.map_cons, List.nodup_cons] at hN
    by_cases hk : k1 = k
    · rw [mapSet, if_pos hk, mapDelete, if_pos rfl, mapDelete, if_pos hk]
    · rw [mapSet, if_neg hk, mapDelete, if_neg hk, mapDelete, if_neg hk, ih hN.2]

theorem mapKeys_mapSet {α : Type} (l : List (String × α)) (k : String) (v : α) :
    mapKeys (mapSet l k v) =
      if k ∈ mapKeys l then mapKeys l else mapKeys l ++ [k] := by
  induction l with
  | nil => simp [mapSet, mapKeys]
  | cons hd t ih =>
    obtain ⟨k1, v1⟩ := hd
    by_cases hk : k1 = k
    · subst hk
      simp [mapSet, mapKeys]
    · rw [mapSet, if_neg hk]
      simp only [mapKeys, List.map_cons] at ih ⊢
      rw [ih]
      by_cases hm : k ∈ List.map Prod.fst t
      · rw [if_pos hm, if_pos (List.mem_cons_of_mem _ hm)]
      · rw [if_neg hm, if_neg (by
          simp only [List.mem_cons, not_or]
          exact ⟨fun h => hk h.symm, hm⟩)]
        simp

theorem mapKeys_mapSet_nodup {α : Type} {l : List (String × α)} (k : String) (v : α)
    (hN : (mapKeys l).Nodup) : (mapKeys (mapSet l k v)).Nodup := by
  rw [mapKeys_mapSet]
  split_ifs with hm
  · exact hN
  · simp [List.nodup_append, hN, hm]

/-!
## Stream framing (`StdioMcpClient.processBuffer`, stdioClient.ts lines 111-115)

The stdout bytes of the child are accumulated in `this.buffer`; on every
`data` event the buffer is split on newline characters
(`this.buffer.split(/\n/)`), the last element — the trailing partial line —
is popped back into the buffer (`this.buffer = parts.pop() || ''`) and the
remaining complete lines are processed in order.
-/

/-- JavaScript `s.split(/\n/)` on a character list: splits at every newline,
keeping empty components, and always returns at least one component. -/
def splitNl : List Char → List (List Char)
  | [] => [[]]
  | c :: cs =>
    let r := splitNl cs
    if c = '\n' then [] :: r
    else (c :: r.headI) :: r.tail

theorem splitNl_ne_nil (s : List Char) : splitNl s ≠ [] := by
  cases s with
  | nil => simp [splitNl]
  | cons c cs =>
    simp only [splitNl]
    split_ifs <;> simp

/-- Prefix a list onto the first component of a split (how a retained
partial line is joined to the data that follows it). -/
def consHead (p : List Char) : List (List Char) → List (List Char)
  | [] => [p]
  | h :: t => (p ++ h) :: t

theorem consHead_ne_nil (p : List Char) (l : List (List Char)) : consHead p l ≠ [] := by
  cases l <;> simp [consHead]

theorem dropLast_cons_of_ne_nil {α : Type} (x : α) {l : List α} (h : l ≠ []) :
    (x :: l).dropLast = x :: l.dropLast := by
  cases l with
  | nil => exact absurd rfl h
  | cons y t => rfl

theorem getLastD_cons_of_ne_nil {α : Type} (x : α) {l : List α} (h : l ≠ []) (d : α) :
    (x :: l).getLastD d = l.getLastD d := by
  cases l with
  | nil => exact absurd rfl h
  | cons y t => simp only [List.getLastD_cons]

/-- Splitting a concatenation: the components of `a` remain, except that the
last (partial) component of `a` is glued onto the first component of `b`. -/
theorem splitNl_append (a b : List Char) :
    splitNl (a ++ b) =
      (splitNl a).dropLast ++ consHead ((splitNl a).getLastD []) (splitNl b) := by
  induction a with
  | nil =>
    obtain ⟨h, t, heq⟩ := List.exists_cons_of_ne_nil (splitNl_ne_nil b)
    simp [splitNl, heq, consHead]
  | cons c cs ih =>
    have key : splitNl ((c :: cs) ++ b) =
        (if c = '\n' then [] :: splitNl (cs ++ b)
         else (c :: (splitNl (cs ++ b)).headI) :: (splitNl (cs ++ b)).tail) := rfl
    have keya : splitNl (c :: cs) =
        (if c = '\n' then [] :: splitNl cs
         else (c :: (splitNl cs).headI) :: (splitNl cs).tail) := rfl
    obtain ⟨x, r1, heq⟩ := List.exists_cons_of_ne_nil (splitNl_ne_nil cs)
    by_cases hc : c = '\n'
    · rw [key, if_pos hc, keya, if_pos hc, ih, heq]
      rw [dropLast_cons_of_ne_nil [] (by simp), getLastD_cons_of_ne_nil [] (by simp) []]
      simp
    · rw [key, if_neg hc, keya, if_neg hc, ih, heq]
      cases r1 with
      | nil =>
        obtain ⟨hb, tb, heqb⟩ := List.exists_cons_of_ne_nil (splitNl_ne_nil b)
        rw [heqb]
        simp [consHead]
      | cons y t =>
        rw [dropLast_cons_of_ne_nil x (by simp)]
        rw [getLastD_cons_of_ne_nil x (by simp) []]
        simp only [List.headI, List.tail_cons]
        rw [dropLast_cons_of_ne_nil (c :: x) (by simp)]
        rw [getLastD_cons_of_ne_nil (c :: x) (by simp) []]
        simp

/-- The trailing component of a split never contains a newline. -/
theorem newline_not_mem_getLastD_splitNl (s : List Char) :
    '\n' ∉ (splitNl s).getLastD [] := by
  induction s with
  | nil => simp [splitNl]
  | cons c cs ih =>
    by_cases hc : c = '\n'
    · simp only [splitNl, if_pos hc]
      rw [getLastD_cons_of_ne_nil [] (splitNl_ne_nil cs)]
      exact ih
    · obtain ⟨x, r1, heq⟩ := List.exists_cons_of_ne_nil (splitNl_ne_nil cs)
      have key : splitNl (c :: cs) =
          (c :: (splitNl cs).headI) :: (splitNl cs).tail := by
        rw [show splitNl (c :: cs) =
          (if c = '\n' then [] :: splitNl cs
           else (c :: (splitNl cs).headI) :: (splitNl cs).tail) from rfl, if_neg hc]
      rw [key, heq]
      cases r1 with
      | nil =>
        simp only [List.headI, List.tail_cons, List.getLastD_cons, List.getLastD_nil]
        rw [heq] at ih
        simp only [List.getLastD_cons, List.getLastD_nil] at ih
        simp only [List.mem_cons, not_or]
        exact ⟨fun hcc => hc hcc.symm, fun hm => ih hm⟩
      | cons y t =>
        simp only [List.headI, List.tail_cons]
        rw [getLastD_cons_of_ne_nil (c :: x) (by simp) []]
        rw [heq, getLastD_cons_of_ne_nil x (by simp) []] at ih
        exact ih

/-- One call of `processBuffer` after `this.buffer += chunk` (stdioClient.ts
lines 66-68 and 111-115): returns the complete frames — all components of
the split except the last (`parts.pop()`) — and the new buffer, the trailing
partial line (`parts.pop() || ''`; popping the empty string also leaves the
empty buffer). -/
def processChunk (buf chunk : List Char) : List (List Char) × List Char :=
  let parts := splitNl (buf ++ chunk)
  (parts.dropLast, parts.getLastD [])

/-- Deliver a sequence of stdout chunks one `data` event at a time,
accumulating the complete frames in order. -/
def feedChunks (buf : List Char) : List (List Char) → List (List Char) × List Char
  | [] => ([], buf)
  | c :: rest =>
    let fs := processChunk buf c
    let rec1 := feedChunks fs.2 rest
    (fs.1 ++ rec1.1, rec1.2)

/-- A newline-free list splits into a single component. -/
theorem splitNl_of_no_newline {l : List Char} (h : '\n' ∉ l) : splitNl l = [l] := by
  induction l with
  | nil => rfl
  | cons c cs ih =>
    simp only [List.mem_cons, not_or] at h
    have hc : c ≠ '\n' := fun hcc => h.1 hcc.symm
    rw [show splitNl (c :: cs) =
      (if c = '\n' then [] :: splitNl cs
       else (c :: (splitNl cs).headI) :: (splitNl cs).tail) from rfl, if_neg hc,
      ih h.2]
    rfl

theorem dropLast_append_of_ne_nil {α : Type} (x : List α) {y : List α} (h : y ≠ []) :
    (x ++ y).dropLast = x ++ y.dropLast := by
  induction x with
  | nil => rfl
  | cons a t ih =>
    rw [List.cons_append, dropLast_cons_of_ne_nil a (by simp [h]), ih, List.cons_append]

theorem getLastD_append_of_ne_nil {α : Type} (x : List α) {y : List α} (h : y ≠ [])
    (d : α) : (x ++ y).getLastD d = y.getLastD d := by
  induction x with
  | nil => rfl
  | cons a t ih =>
    rw [List.cons_append, getLastD_cons_of_ne_nil a (by simp [h]) d, ih]

theorem processChunk_eq (buf chunk : List Char) :
    processChunk buf chunk =
      ((splitNl (buf ++ chunk)).dropLast, (splitNl (buf ++ chunk)).getLastD []) := rfl

/-- Splitting one delivery into two consecutive deliveries produces the same
frames and the same final buffer. -/
theorem processChunk_append (buf a b : List Char) :
    processChunk buf (a ++ b) =
      ((processChunk buf a).1 ++ (processChunk (processChunk buf a).2 b).1,
       (processChunk (processChunk buf a).2 b).2) := by
  have hb1 : '\n' ∉ (splitNl (buf ++ a)).getLastD [] :=
    newline_not_mem_getLastD_splitNl (buf ++ a)
  have hsplit1 : splitNl ((splitNl (buf ++ a)).getLastD [] ++ b) =
      consHead ((splitNl (buf ++ a)).getLastD []) (splitNl b) := by
    rw [splitNl_append, splitNl_of_no_newline hb1]
    rfl
  have hassoc : buf ++ (a ++ b) = (buf ++ a) ++ b := (List.append_assoc _ _ _).symm
  rw [processChunk_eq buf (a ++ b), processChunk_eq buf a, processChunk_eq, hassoc,
    splitNl_append (buf ++ a) b, hsplit1,
    dropLast_append_of_ne_nil _ (consHead_ne_nil _ _),
    getLastD_append_of_ne_nil _ (consHead_ne_nil _ _)]

/-- Feeding any chunk sequence equals processing its concatenation, provided
the starting buffer holds no complete frame (it is a partial line). -/
theorem feedChunks_eq_of_no_newline {buf : List Char} (h : '\n' ∉ buf) :
    ∀ chunks : List (List Char), feedChunks buf chunks = processChunk buf chunks.flatten := by
  intro chunks
  induction chunks generalizing buf with
  | nil =>
    rw [show feedChunks buf [] = ([], buf) from rfl, List.flatten_nil, processChunk_eq,
      List.append_nil, splitNl_of_no_newline h]
    rfl
  | cons c rest ih =>
    have hb1 : '\n' ∉ (processChunk buf c).2 := by
      rw [processChunk_eq]
      exact newline_not_mem_getLastD_splitNl (buf ++ c)
    rw [show feedChunks buf (c :: rest) =
        ((processChunk buf c).1 ++ (feedChunks (processChunk buf c).2 rest).1,
         (feedChunks (processChunk buf c).2 rest).2) from rfl,
      ih hb1, List.flatten_cons, processChunk_append buf c rest.flatten]

/-- State of the incremental UTF-8 decoder (WHATWG encoding standard, the
algorithm V8 uses for `buffer.toString('utf8')`): the code point being
assembled, how many continuation bytes are still expected, how many were
seen, and the admissible range of the next byte. -/
structure Utf8State where
  codePoint : Nat
  bytesNeeded : Nat
  bytesSeen : Nat
  lower : Nat
  upper : Nat

/-- The decoder state at a sequence boundary. -/
def utf8Init : Utf8State := ⟨0, 0, 0, 0x80, 0xBF⟩

/-- U+FFFD, the replacement character emitted for malformed input. -/
def replChar : Char := '\uFFFD'

/-- Classification of a byte read in boundary state: ASCII and invalid
leading bytes emit a character at once; multibyte leads initialize the
assembly state, with the tightened second-byte ranges that exclude overlong
forms and surrogates (`0xE0`/`0xED`/`0xF0`/`0xF4`). -/
def utf8StartClassify (b : Nat) : Option Char × Utf8State :=
  if b ≤ 0x7F then (some (Char.ofNat b), utf8Init)
  else if 0xC2 ≤ b ∧ b ≤ 0xDF then (none, ⟨b % 32, 1, 0, 0x80, 0xBF⟩)
  else if 0xE0 ≤ b ∧ b ≤ 0xEF then
    (none, ⟨b % 16, 2, 0, if b = 0xE0 then 0xA0 else 0x80,
            if b = 0xED then 0x9F else 0xBF⟩)
  else if 0xF0 ≤ b ∧ b ≤ 0xF4 then
    (none, ⟨b % 8, 3, 0, if b = 0xF0 then 0x90 else 0x80,
            if b = 0xF4 then 0x8F else 0xBF⟩)
  else (some replChar, utf8Init)

/-- One pass of the WHATWG UTF-8 decoder over a byte list.  A continuation
byte outside the admissible range emits U+FFFD and is reprocessed as a
fresh leading byte; a truncated sequence at the end of the input emits one
U+FFFD — which is exactly what happens when `chunk.toString('utf8')`
decodes a chunk that ends mid-character. -/
def utf8Run (st : Utf8State) : List Nat → List Char
  | [] => if st.bytesNeeded = 0 then [] else [replChar]
  | b :: rest =>
    if st.bytesNeeded = 0 then
      match utf8StartClassify b with
      | (some ch, st2) => ch :: utf8Run st2 rest
      | (none, st2) => utf8Run st2 rest
    else if st.lower ≤ b ∧ b ≤ st.upper then
      if st.bytesSeen + 1 = st.bytesNeeded then
        Char.ofNat (st.codePoint * 64 + b % 64) :: utf8Run utf8Init rest
      else
        utf8Run ⟨st.codePoint * 64 + b % 64, st.bytesNeeded, st.bytesSeen + 1,
                 0x80, 0xBF⟩ rest
    else
      replChar ::
        (match utf8StartClassify b with
         | (some ch, st2) => ch :: utf8Run st2 rest
         | (none, st2) => utf8Run st2 rest)

/-- `buf.toString('utf8')` for one `Buffer` of bytes, by itself: the
decoder starts and ends at a (forced) sequence boundary. -/
def utf8Decode (bytes : List Nat) : List Char :=
  utf8Run utf8Init bytes

/-- Standard UTF-8 encoding of one scalar value. -/
def utf8EncodeChar (c : Char) : List Nat :=
  if c.toNat < 0x80 then [c.toNat]
  else if c.toNat < 0x800 then [0xC0 + c.toNat / 64, 0x80 + c.toNat % 64]
  else if c.toNat < 0x10000 then
    [0xE0 + c.toNat / 4096, 0x80 + c.toNat / 64 % 64, 0x80 + c.toNat % 64]
  else
    [0xF0 + c.toNat / 262144, 0x80 + c.toNat / 4096 % 64,
     0x80 + c.toNat / 64 % 64, 0x80 + c.toNat % 64]



theorem utf8StartClassify_ascii (b : Nat) (h : b ≤ 0x7F) :
    utf8StartClassify b = (some (Char.ofNat b), utf8Init) := by
  unfold utf8StartClassify
  rw [if_pos h]

theorem utf8StartClassify_two (b : Nat) (h1 : 0xC2 ≤ b) (h2 : b ≤ 0xDF) :
    utf8StartClassify b = (none, ⟨b % 32, 1, 0, 0x80, 0xBF⟩) := by
  unfold utf8StartClassify
  rw [if_neg (by omega), if_pos ⟨h1, h2⟩]

theorem utf8StartClassify_three (b : Nat) (h1 : 0xE0 ≤ b) (h2 : b ≤ 0xEF) :
    utf8StartClassify b = (none, ⟨b % 16, 2, 0, if b = 0xE0 then 0xA0 else 0x80,
      if b = 0xED then 0x9F else 0xBF⟩) := by
  unfold utf8StartClassify
  rw [if_neg (by omega), if_neg (by omega), if_pos ⟨h1, h2⟩]

theorem utf8StartClassify_four (b : Nat) (h1 : 0xF0 ≤ b) (h2 : b ≤ 0xF4) :
    utf8StartClassify b = (none, ⟨b % 8, 3, 0, if b = 0xF0 then 0x90 else 0x80,
      if b = 0xF4 then 0x8F else 0xBF⟩) := by
  unfold utf8StartClassify
  rw [if_neg (by omega), if_neg (by omega), if_neg (by omega), if_pos ⟨h1, h2⟩]

theorem utf8Run_start_emit (b : Nat) (rest : List Nat) (ch : Char) (st2 : Utf8State)
    (h : utf8StartClassify b = (some ch, st2)) :
    utf8Run utf8Init (b :: rest) = ch :: utf8Run st2 rest := by
  simp only [utf8Run, utf8Init]
  rw [h]
  rfl

theorem utf8Run_start_cont (b : Nat) (rest : List Nat) (st2 : Utf8State)
    (h : utf8StartClassify b = (none, st2)) :
    utf8Run utf8Init (b :: rest) = utf8Run st2 rest := by
  simp only [utf8Run, utf8Init]
  rw [h]
  rfl

theorem utf8Run_cont_more (cp need seen lo up b : Nat) (rest : List Nat)
    (hn : need ≠ 0) (hb : lo ≤ b ∧ b ≤ up) (hmore : seen + 1 ≠ need) :
    utf8Run ⟨cp, need, seen, lo, up⟩ (b :: rest) =
      utf8Run ⟨cp * 64 + b % 64, need, seen + 1, 0x80, 0xBF⟩ rest := by
  simp only [utf8Run]
  rw [if_neg hn, if_pos hb, if_neg hmore]

theorem utf8Run_cont_fin (cp need seen lo up b : Nat) (rest : List Nat)
    (hn : need ≠ 0) (hb : lo ≤ b ∧ b ≤ up) (hfin : seen + 1 = need) :
    utf8Run ⟨cp, need, seen, lo, up⟩ (b :: rest) =
      Char.ofNat (cp * 64 + b % 64) :: utf8Run utf8Init rest := by
  simp only [utf8Run]
  rw [if_neg hn, if_pos hb, if_pos hfin]

/-- Decoding consumes one well-formed encoded character exactly. -/
theorem utf8Run_encodeChar (c : Char) (rest : List Nat) :
    utf8Run utf8Init (utf8EncodeChar c ++ rest) = c :: utf8Run utf8Init rest := by
  have hv : c.toNat < 0xD800 ∨ (0xDFFF < c.toNat ∧ c.toNat < 0x110000) := c.valid
  have hofn : Char.ofNat c.toNat = c := Char.ofNat_toNat c
  by_cases h1 : c.toNat < 0x80
  · have he : utf8EncodeChar c = [c.toNat] := by
      rw [utf8EncodeChar, if_pos h1]
    rw [he, List.singleton_append,
      utf8Run_start_emit _ _ _ _ (utf8StartClassify_ascii c.toNat (by omega)), hofn]
  · by_cases h2 : c.toNat < 0x800
    · have he : utf8EncodeChar c = [0xC0 + c.toNat / 64, 0x80 + c.toNat % 64] := by
        rw [utf8EncodeChar, if_neg h1, if_pos h2]
      have s2 := utf8Run_cont_fin ((0xC0 + c.toNat / 64) % 32) 1 0 0x80 0xBF
        (0x80 + c.toNat % 64) rest (by decide) ⟨by omega, by omega⟩ (by decide)
      have harg : (0xC0 + c.toNat / 64) % 32 * 64 + (0x80 + c.toNat % 64) % 64 =
          c.toNat := by omega
      rw [he, List.cons_append, List.singleton_append,
        utf8Run_start_cont _ _ _ (utf8StartClassify_two _ (by omega) (by omega)),
        s2, harg, hofn]
    · by_cases h3 : c.toNat < 0x10000
      · have he : utf8EncodeChar c =
            [0xE0 + c.toNat / 4096, 0x80 + c.toNat / 64 % 64, 0x80 + c.toNat % 64] := by
          rw [utf8EncodeChar, if_neg h1, if_neg h2, if_pos h3]
        have hb2 : (if 0xE0 + c.toNat / 4096 = 0xE0 then 0xA0 else 0x80) ≤
              0x80 + c.toNat / 64 % 64 ∧
            0x80 + c.toNat / 64 % 64 ≤
              (if 0xE0 + c.toNat / 4096 = 0xED then 0x9F else 0xBF) := by
          constructor <;> split_ifs <;> rcases hv with h | h <;> omega
        have s2 := utf8Run_cont_more ((0xE0 + c.toNat / 4096) % 16) 2 0
          (if 0xE0 + c.toNat / 4096 = 0xE0 then 0xA0 else 0x80)
          (if 0xE0 + c.toNat / 4096 = 0xED then 0x9F else 0xBF)
          (0x80 + c.toNat / 64 % 64) ((0x80 + c.toNat % 64) :: rest)
          (by decide) hb2 (by decide)
        have s3 := utf8Run_cont_fin
          ((0xE0 + c.toNat / 4096) % 16 * 64 + (0x80 + c.toNat / 64 % 64) % 64) 2 1
          0x80 0xBF (0x80 + c.toNat % 64) rest (by decide) ⟨by omega, by omega⟩
          (by decide)
        have harg : ((0xE0 + c.toNat / 4096) % 16 * 64 +
              (0x80 + c.toNat / 64 % 64) % 64) * 64 + (0x80 + c.toNat % 64) % 64 =
            c.toNat := by omega
        rw [he, List.cons_append, List.cons_append, List.singleton_append,
          utf8Run_start_cont _ _ _ (utf8StartClassify_three _ (by omega) (by omega)),
          s2, s3, harg, hofn]
      · have hmax : c.toNat < 0x110000 := by rcases hv with h | h <;> omega
        have he : utf8EncodeChar c =
            [0xF0 + c.toNat / 262144, 0x80 + c.toNat / 4096 % 64,
             0x80 + c.toNat / 64 % 64, 0x80 + c.toNat % 64] := by
          rw [utf8EncodeChar, if_neg h1, if_neg h2, if_neg h3]
        have hb2 : (if 0xF0 + c.toNat / 262144 = 0xF0 then 0x90 else 0x80) ≤
              0x80 + c.toNat / 4096 % 64 ∧
            0x80 + c.toNat / 4096 % 64 ≤
              (if 0xF0 + c.toNat / 262144 = 0xF4 then 0x8F else 0xBF) := by
          constructor <;> split_ifs <;> omega
        have s2 := utf8Run_cont_more ((0xF0 + c.toNat / 262144) % 8) 3 0
          (if 0xF0 + c.toNat / 262144 = 0xF0 then 0x90 else 0x80)
          (if 0xF0 + c.toNat / 262144 = 0xF4 then 0x8F else 0xBF)
          (0x80 + c.toNat / 4096 % 64)
          ((0x80 + c.toNat / 64 % 64) :: (0x80 + c.toNat % 64) :: rest)
          (by decide) hb2 (by decide)
        have s3 := utf8Run_cont_more
          ((0xF0 + c.toNat / 262144) % 8 * 64 + (0x80 + c.toNat / 4096 % 64) % 64) 3 1
          0x80 0xBF (0x80 + c.toNat / 64 % 64) ((0x80 + c.toNat % 64) :: rest)
          (by decide) ⟨by omega, by omega⟩ (by decide)
        have s4 := utf8Run_cont_fin
          (((0xF0 + c.toNat / 262144) % 8 * 64 + (0x80 + c.toNat / 4096 % 64) % 64) *
            64 + (0x80 + c.toNat / 64 % 64) % 64) 3 2
          0x80 0xBF (0x80 + c.toNat % 64) rest (by decide) ⟨by omega, by omega⟩
          (by decide)
        have harg : (((0xF0 + c.toNat / 262144) % 8 * 64 +
              (0x80 + c.toNat / 4096 % 64) % 64) * 64 +
              (0x80 + c.toNat / 64 % 64) % 64) * 64 + (0x80 + c.toNat % 64) % 64 =
            c.toNat := by omega
        rw [he, List.cons_append, List.cons_append, List.cons_append,
          List.singleton_append,
          utf8Run_start_cont _ _ _ (utf8StartClassify_four _ (by omega) (by omega)),
          s2, s3, s4, harg, hofn]

/-- UTF-8 encoding of a character sequence. -/
def utf8Encode (l : List Char) : List Nat :=
  (l.map utf8EncodeChar).flatten

theorem utf8Run_encode_append (l : List Char) (rest : List Nat) :
    utf8Run utf8Init (utf8Encode l ++ rest) = l ++ utf8Run utf8Init rest := by
  induction l with
  | nil => rfl
  | cons c t ih =>
    rw [show utf8Encode (c :: t) = utf8EncodeChar c ++ utf8Encode t from by
        simp [utf8Encode],
      List.append_assoc, utf8Run_encodeChar, ih, List.cons_append]

/-- Round trip: decoding an encoding recovers the characters. -/
theorem utf8Decode_encode (l : List Char) : utf8Decode (utf8Encode l) = l := by
  have h := utf8Run_encode_append l []
  rw [List.append_nil] at h
  rw [utf8Decode, h, show utf8Run utf8Init ([] : List Nat) = [] from rfl,
    List.append_nil]

/-- The stdout `data` handler (stdioClient.ts lines 66-69) with the decode
step made explicit: `this.buffer += chunk.toString('utf8')` decodes the
byte chunk **by itself** — truncated multibyte sequences at the chunk edge
become U+FFFD — and `processBuffer` then splits the accumulated text. -/
def processChunkBytes (buf : List Char) (chunk : List Nat) :
    List (List Char) × List Char :=
  processChunk buf (utf8Decode chunk)

/-- Deliver a sequence of byte chunks one `data` event at a time, each
decoded by itself as in the source. -/
def feedChunksBytes (buf : List Char) (chunks : List (List Nat)) :
    List (List Char) × List Char :=
  feedChunks buf (chunks.map utf8Decode)

/-- JS `String.prototype.trim` character class (ASCII part); a frame is
skipped by `processBuffer` when `!raw.trim()`, i.e. when every character is
whitespace (stdioClient.ts line 117). -/
def isJsWhitespace (c : Char) : Bool :=
  c = ' ' || c = '\t' || c = '\n' || c = '\r' || c = '\u000B' || c = '\u000C'

/-- A raw frame that `if (!raw.trim()) continue` skips. -/
def frameBlank (l : List Char) : Bool :=
  l.all isJsWhitespace

/-- The logical messages obtained from a frame sequence: blank frames are
skipped and each remaining frame is given to `JSON.parse` (modelled by the
`parse` argument); unparseable frames are dropped with a diagnostic
(stdioClient.ts lines 117-124). -/
def parsedMessages (frames : List (List Char)) (parse : List Char → Option Json) :
    List Json :=
  (frames.filter (fun f => !frameBlank f)).filterMap parse

/-!
## Protocol dispatch (`StdioMcpClient`, stdioClient.ts)

Parsed messages are classified by field shape (lines 125-142): a message
with an `id` and a `result` or `error` field is a response and resolves the
matching `PendingCall`; a message with a `method` and no `result`/`error` is
an inbound request (if it has an `id`) or a notification (if it does not).
Promise continuations and the callbacks stored in `this.pending` are
identified by `Nat` tokens; their invocations are recorded as events.
-/

/-- Field access on a parsed JSON value (`msg.foo`): defined only on
objects, `none` models JavaScript `undefined`. -/
def Json.getField : Json → String → Option Json
  | .obj fields, k => mapGet fields k
  | _, _ => none

/-- JS `'k' in msg`-style presence test used by the classifier. -/
def Json.hasField (j : Json) (k : String) : Bool :=
  (j.getField k).isSome

/-- JS truthiness of a value, for `if (res.error)` (stdioClient.ts line 152). -/
def Json.truthy : Json → Bool
  | .null => false
  | .bool b => b
  | .num n => n ≠ 0
  | .str s => s ≠ ""
  | .arr _ => true
  | .obj _ => true

/-- JS string interpolation of a value, as in template literals. -/
def Json.display : Json → String
  | .null => "null"
  | .bool b => if b then "true" else "false"
  | .num n => toString n
  | .str s => s
  | .arr _ => ""
  | .obj _ => "[object Object]"

/-- Interpolation of a possibly-absent value (`undefined` prints as such). -/
def displayOpt : Option Json → String
  | none => "undefined"
  | some v => v.display

/-- The error member of a JSON-RPC response (`{code, message}`). -/
structure RpcError where
  code : Int
  message : String
deriving DecidableEq

/-- A message written to the child's stdin, before serialization. -/
inductive OutMsg where
  | request (id : String) (method : String) (params : Option Json)
  | response (id : Json) (result : Option Json) (error : Option RpcError)

/-- Typed failures surfaced to the caller of the client. -/
inductive McpError where
  | notRunning
  | spawnError
  | remoteError (code : String) (message : String)
deriving DecidableEq

/-- Observable effects of one dispatch step. -/
inductive ClientEvent where
  | resolved (token : Nat) (msg : Json)
  | sent (m : OutMsg)
  | inboundDispatched (method : String) (id : Json)

/-- Construction-time options of `StdioMcpClient` that the dispatch logic
consults: whether the executable exists on disk (for `start`) and whether
the `onPrompt` / `onResourceRequest` callbacks were supplied. -/
structure ClientOptions where
  commandExists : Bool
  onPromptRegistered : Bool
  onResourceRegistered : Bool

/-- The mutable state of one `StdioMcpClient` (stdioClient.ts lines 37-41):
process handle presence, read buffer, pending-call map, tool catalog and
the handshake flag.  Fresh correlation ids (`uuid()`) are modelled by the
`nextId` counter. -/
structure ClientState where
  childRunning : Bool
  buffer : List Char
  pending : List (String × Nat)
  tools : Json
  handshakeDone : Bool
  nextId : Nat

/-- The state built by the constructor: no child, empty buffer, no pending
calls, empty tool list (`private tools: McpToolDefinition[] = []`), and the
handshake flag (`initialized`) false. -/
def ClientState.new : ClientState :=
  { childRunning := false, buffer := [], pending := [], tools := .arr [],
    handshakeDone := false, nextId := 0 }

/-- `start()` (stdioClient.ts lines 45-77): a no-op while a child is
attached; throws `SpawnError` when the executable path does not exist;
otherwise spawns the child.  The returned number counts processes spawned
by the call. -/
def ClientState.start (opts : ClientOptions) (s : ClientState) :
    ClientState × Except McpError Nat :=
  if s.childRunning then (s, .ok 0)
  else if opts.commandExists then ({ s with childRunning := true }, .ok 1)
  else (s, .error .spawnError)

/-- The fresh correlation id drawn by `sendRequest` (`const id = uuid()`). -/
def freshId (s : ClientState) : String :=
  "uuid-" ++ toString s.nextId

/-- `sendRequest` up to its suspension point (stdioClient.ts lines 146-167):
rejects with `NotRunning` when no child is attached; otherwise registers the
response continuation in `this.pending` under a fresh id and writes the
request frame.  The `ok` value is the correlation id whose `PendingCall`
(token `s.nextId`) is now outstanding. -/
def sendRequestStep (s : ClientState) (method : String) (params : Option Json) :
    ClientState × List OutMsg × Except McpError String :=
  if s.childRunning then
    ({ s with pending := mapSet s.pending (freshId s) s.nextId, nextId := s.nextId + 1 },
     [.request (freshId s) method params], .ok (freshId s))
  else (s, [], .error .notRunning)

/-- The continuation installed by `sendRequest` when no response schema is
given (stdioClient.ts lines 151-164): a truthy `error` member rejects with
the child's code and message (`new Error` of the string
`res.error.code + ": " + res.error.message` — the `RemoteError` of the
design); otherwise the `result` member is returned verbatim. -/
def completeCall (res : Json) : Except McpError (Option Json) :=
  match res.getField "error" with
  | some e =>
    if e.truthy then
      .error (.remoteError (displayOpt (e.getField "code"))
        (displayOpt (e.getField "message")))
    else .ok (res.getField "result")
  | none => .ok (res.getField "result")

/-- `callTool(name, args)` (stdioClient.ts lines 198-200): a `tools/call`
request whose params are `{name, arguments: args}`, with no schema. -/
def callToolParams (name : String) (args : Json) : Json :=
  .obj [("name", .str name), ("arguments", args)]

def callTool (s : ClientState) (name : String) (args : Json) :
    ClientState × List OutMsg × Except McpError String :=
  sendRequestStep s "tools/call" (some (callToolParams name args))

/-- `sendResponse` (stdioClient.ts lines 105-109): silently dropped when no
child is attached, otherwise one response frame is written. -/
def sendResponseStep (s : ClientState) (id : Json) (result : Option Json)
    (err : Option RpcError) : List ClientEvent :=
  if s.childRunning then [.sent (.response id result err)] else []

/-- Does the `method` member equal the given string (`req.method === m`)? -/
def Json.methodIs (j : Json) (m : String) : Bool :=
  match j.getField "method" with
  | some (.str s) => s = m
  | _ => false

/-- `handleServerRequest` (stdioClient.ts lines 79-103): `prompts/get` with
a registered prompt callback and `resources/read` with a registered
resource callback are dispatched to the callback (the response is written
when the callback settles, outside this synchronous step); any other method
is answered immediately with JSON-RPC error -32601 and the message
`Method not found: ` followed by the interpolated method. -/
def handleServerRequest (opts : ClientOptions) (s : ClientState) (req : Json) :
    ClientState × List ClientEvent :=
  let rid := (req.getField "id").getD .null
  if req.methodIs "prompts/get" && opts.onPromptRegistered then
    (s, [.inboundDispatched "prompts/get" rid])
  else if req.methodIs "resources/read" && opts.onResourceRegistered then
    (s, [.inboundDispatched "resources/read" rid])
  else
    (s, sendResponseStep s rid none
      (some ⟨-32601, "Method not found: " ++ displayOpt (req.getField "method")⟩))

/-- `request.params?.tools ?? []` (stdioClient.ts line 139, and the
`result?.tools ?? []` of `initialize`, line 187). -/
def coalesceTools : Option Json → Json
  | none => .arr []
  | some .null => .arr []
  | some v => v

/-- Classification and dispatch of one parsed message (stdioClient.ts lines
125-142).  A response (`id` plus `result` or `error`) resolves the matching
pending continuation, if any, after removing it from the map; an inbound
request is routed to `handleServerRequest`; a `tools/list` notification
replaces the tool catalog wholesale; anything else is ignored. -/
def dispatchParsed (opts : ClientOptions) (s : ClientState) (msg : Json) :
    ClientState × List ClientEvent :=
  if msg.hasField "id" && (msg.hasField "result" || msg.hasField "error") then
    match msg.getField "id" with
    | some (.str i) =>
      match mapGet s.pending i with
      | some tok => ({ s with pending := mapDelete s.pending i }, [.resolved tok msg])
      | none => (s, [])
    | _ => (s, [])
  else if msg.hasField "method" && !(msg.hasField "result" || msg.hasField "error") then
    if msg.hasField "id" then
      handleServerRequest opts s msg
    else if msg.methodIs "tools/list" then
      ({ s with tools := coalesceTools ((msg.getField "params").bind
          (fun p => p.getField "tools")) }, [])
    else (s, [])
  else (s, [])

/-- `listTools()` (stdioClient.ts lines 194-196): the current snapshot. -/
def listTools (s : ClientState) : Json :=
  s.tools

/-- Resumption of `initialize()` after its `tools/list` request resolved
successfully (stdioClient.ts lines 186-191): the catalog becomes
`result?.tools ?? []` and the handshake flag is set. -/
def finishToolFetch (s : ClientState) (result : Option Json) : ClientState :=
  { s with
    tools := coalesceTools (result.bind (fun r => r.getField "tools")),
    handshakeDone := true }

/-!
## Session supervisor (`SessionManager`, sessionManager.ts)

Sessions are keyed by session id in a `Map`.  WebSocket connections are
identified by `Nat` handles with an open flag (`readyState === OPEN`);
`setTimeout` handles and prompt-promise continuations are identified by
fresh `Nat` tokens drawn from a per-session counter, and the set of timers
not yet fired or cleared is tracked explicitly.  Wall-clock reads
(`Date.now()`) are passed in as the `now` argument.
-/

/-- A WebSocket connection attached to a session. -/
structure WsConn where
  connId : Nat
  isOpen : Bool
deriving DecidableEq

/-- One entry of `session.promptResolvers` (sessionManager.ts lines 13-17):
the resolve/reject continuation (`token`) and the `setTimeout` handle. -/
structure PromptResolver where
  token : Nat
  timeoutHandle : Nat
deriving DecidableEq

/-- The `pingoneConfig` supplied to `initializeMcpClient`. -/
structure PingoneConfig where
  environmentId : String
  clientId : String
  region : String
  topLevelDomain : String
deriving DecidableEq

/-- One `UserSession` (sessionManager.ts lines 8-25).  `mcpClientPresent`
models `mcpClient !== undefined`; `nextHandle` allocates fresh timer
handles and prompt tokens; `activeTimers` holds the `setTimeout` handles
not yet fired or cleared. -/
structure UserSession where
  mcpClientPresent : Bool
  wsConnections : List WsConn
  lastActivity : Nat
  promptResolvers : List (String × PromptResolver)
  activeTimers : List Nat
  nextHandle : Nat
  pingoneConfig : Option PingoneConfig
deriving DecidableEq

/-- The session registry (`private sessions = new Map<...>`). -/
structure ManagerState where
  sessions : List (String × UserSession)
deriving DecidableEq

/-- `IDLE_TIMEOUT = 30 * 60 * 1000` (sessionManager.ts line 29). -/
def IDLE_TIMEOUT : Nat := 30 * 60 * 1000

/-- Typed failures of the supervisor (§7 taxonomy; each corresponds to a
`new Error(...)` message in the source). -/
inductive SmError where
  | sessionNotFound (sid : String)
  | noClients
  | promptTimeout
  | sessionTerminated
  | spawnError
deriving DecidableEq

/-- Observable effects of supervisor operations. -/
inductive SmEvent where
  | promptSent (connId : Nat) (promptId : String)
  | promptResolvedTo (token : Nat) (response : Json)
  | promptRejected (token : Nat) (err : SmError)
  | wsClosed (connId : Nat)

/-- A freshly created session (sessionManager.ts lines 54-62). -/
def UserSession.fresh (now : Nat) : UserSession :=
  { mcpClientPresent := false, wsConnections := [], lastActivity := now,
    promptResolvers := [], activeTimers := [], nextHandle := 0,
    pingoneConfig := none }

/-- `getOrCreateSession` (sessionManager.ts lines 41-69): finds or creates
the session and always refreshes `lastActivity`. -/
def getOrCreateSession (m : ManagerState) (sid : String) (now : Nat) :
    ManagerState × UserSession :=
  match mapGet m.sessions sid with
  | some sess =>
    let s2 := { sess with lastActivity := now }
    (⟨mapSet m.sessions sid s2⟩, s2)
  | none =>
    let s2 := UserSession.fresh now
    (⟨mapSet m.sessions sid s2⟩, s2)

/-- Counts of side effects performed by one `initializeMcpClient` call. -/
structure ConfigureCounts where
  clientsConstructed : Nat
  mcpSpawns : Nat
  loginSpawns : Nat
deriving DecidableEq

/-- `initializeMcpClient` (sessionManager.ts lines 71-127), the `configure`
operation, run to completion: throws when the session does not exist (lines
77-80); returns at once when a client is already attached (lines 82-85);
otherwise stores the config, constructs one `StdioMcpClient`, runs its
`initialize()` — whose `start()` spawns the one MCP child, or throws
`SpawnError` when the executable is missing, while handshake and tool-fetch
failures are caught internally — attaches the client to the session, and
finally spawns the short-lived login subprocess (`triggerLogin`, lines
129-197), whose non-zero exit or timeout still resolves. -/
def configureMcpClient (m : ManagerState) (sid : String) (cfg : PingoneConfig)
    (commandExists : Bool) : ManagerState × Except SmError ConfigureCounts :=
  match mapGet m.sessions sid with
  | none => (m, .error (.sessionNotFound sid))
  | some sess =>
    if sess.mcpClientPresent then (m, .ok ⟨0, 0, 0⟩)
    else if commandExists then
      (⟨mapSet m.sessions sid
        { sess with pingoneConfig := some cfg, mcpClientPresent := true }⟩,
       .ok ⟨1, 1, 1⟩)
    else
      -- `session.pingoneConfig = config` happens before the client is
      -- built, so it survives a spawn failure; the client is not attached.
      (⟨mapSet m.sessions sid { sess with pingoneConfig := some cfg }⟩,
       .error .spawnError)

/-- The prompt id allocated by `handlePromptForSession`
(sessionManager.ts line 208). -/
def promptIdOf (sid : String) (now : Nat) : String :=
  sid ++ "-" ++ toString now

/-- `handlePromptForSession` (sessionManager.ts lines 199-246), run through
the synchronous part of the promise executor: allocates the prompt id and a
timeout, registers the `PendingPrompt`, broadcasts the announcement to
every open WebSocket of the session, and — when nothing was sent — clears
the timeout, removes the entry and rejects with `NoClients`.  The `ok`
outcome is the prompt id left pending. -/
def handlePromptForSession (m : ManagerState) (sid : String) (now : Nat) :
    ManagerState × List SmEvent × Except SmError String :=
  match mapGet m.sessions sid with
  | none => (m, [], .error (.sessionNotFound sid))
  | some sess =>
    let promptId := promptIdOf sid now
    let handle := sess.nextHandle
    let openConns := sess.wsConnections.filter (fun c => c.isOpen)
    let events := openConns.map (fun c => SmEvent.promptSent c.connId promptId)
    let sess1 := { sess with
      promptResolvers := mapSet sess.promptResolvers promptId ⟨handle, handle⟩,
      activeTimers := sess.activeTimers ++ [handle],
      nextHandle := handle + 1 }
    if openConns.isEmpty then
      let sess2 := { sess1 with
        activeTimers := sess1.activeTimers.erase handle,
        promptResolvers := mapDelete sess1.promptResolvers promptId }
      (⟨mapSet m.sessions sid sess2⟩, events, .error .noClients)
    else
      (⟨mapSet m.sessions sid sess1⟩, events, .ok promptId)

/-- `handlePromptResponse` (sessionManager.ts lines 248-265): an unknown
session or an unknown prompt id only logs a warning; a registered resolver
is removed, its timeout cleared, and its promise resolved with the
response. -/
def handlePromptResponse (m : ManagerState) (sid promptId : String)
    (response : Json) : ManagerState × List SmEvent :=
  match mapGet m.sessions sid with
  | none => (m, [])
  | some sess =>
    match mapGet sess.promptResolvers promptId with
    | none => (m, [])
    | some r =>
      let sess2 := { sess with
        activeTimers := sess.activeTimers.erase r.timeoutHandle,
        promptResolvers := mapDelete sess.promptResolvers promptId }
      (⟨mapSet m.sessions sid sess2⟩, [.promptResolvedTo r.token response])

/-- `addWebSocketConnection` (sessionManager.ts lines 267-274). -/
def addWebSocketConnection (m : ManagerState) (sid : String) (ws : WsConn)
    (now : Nat) : ManagerState :=
  match mapGet m.sessions sid with
  | none => m
  | some sess =>
    ⟨mapSet m.sessions sid { sess with
      wsConnections := sess.wsConnections ++ [ws], lastActivity := now }⟩

/-- `destroySession` (sessionManager.ts lines 301-327): rejects every
pending prompt with `SessionTerminated` (clearing its timeout), closes
every connection, and removes the session from the registry. -/
def destroySession (m : ManagerState) (sid : String) : ManagerState × List SmEvent :=
  match mapGet m.sessions sid with
  | none => (m, [])
  | some sess =>
    (⟨mapDelete m.sessions sid⟩,
     sess.promptResolvers.map (fun e => SmEvent.promptRejected e.2.token .sessionTerminated)
       ++ sess.wsConnections.map (fun c => SmEvent.wsClosed c.connId))

/-- Is a session due for reaping (sessionManager.ts line 294)?
`idleTime > IDLE_TIMEOUT && session.wsConnections.size === 0`. -/
def reapDue (now : Nat) (sess : UserSession) : Bool :=
  decide (IDLE_TIMEOUT < now - sess.lastActivity) && sess.wsConnections.isEmpty

/-- The loop body of `cleanupIdleSessions` over a snapshot of the entries. -/
def cleanupLoop (now : Nat) :
    List (String × UserSession) → ManagerState × List SmEvent → ManagerState × List SmEvent
  | [], acc => acc
  | (sid, sess) :: rest, acc =>
    if reapDue now sess then
      let d := destroySession acc.1 sid
      cleanupLoop now rest (d.1, acc.2 ++ d.2)
    else cleanupLoop now rest acc

/-- `cleanupIdleSessions` (sessionManager.ts lines 288-299): destroys every
session that is both idle beyond `IDLE_TIMEOUT` and without connections. -/
def cleanupIdleSessions (m : ManagerState) (now : Nat) : ManagerState × List SmEvent :=
  cleanupLoop now m.sessions (m, [])

theorem destroySession_preserves (m : ManagerState) (k sid : String) (h : sid ≠ k) :
    mapGet (destroySession m k).1.sessions sid = mapGet m.sessions sid := by
  unfold destroySession
  cases hk : mapGet m.sessions k with
  | none => rfl
  | some s0 => exact mapGet_mapDelete_ne _ h

theorem destroySession_nodup (m : ManagerState) (k : String)
    (hN : (mapKeys m.sessions).Nodup) :
    (mapKeys (destroySession m k).1.sessions).Nodup := by
  unfold destroySession
  cases hk : mapGet m.sessions k with
  | none => exact hN
  | some s0 =>
    exact List.Nodup.sublist (List.Sublist.map _ (mapDelete_sublist _ _)) hN

theorem destroySession_lookup_self (m : ManagerState) (k : String)
    (hN : (mapKeys m.sessions).Nodup) :
    mapGet (destroySession m k).1.sessions k = none := by
  unfold destroySession
  cases hk : mapGet m.sessions k with
  | none => exact hk
  | some s0 => exact mapGet_mapDelete_self hN

theorem cleanupLoop_preserves (now : Nat) :
    ∀ (entries : List (String × UserSession)) (acc : ManagerState) (evs : List SmEvent)
      (sid : String), sid ∉ entries.map Prod.fst →
      mapGet (cleanupLoop now entries (acc, evs)).1.sessions sid =
        mapGet acc.sessions sid := by
  intro entries
  induction entries with
  | nil => intro acc evs sid h; rfl
  | cons hd rest ih =>
    intro acc evs sid h
    obtain ⟨k, s0⟩ := hd
    simp only [List.map_cons, List.mem_cons, not_or] at h
    by_cases hr : reapDue now s0
    · rw [show cleanupLoop now ((k, s0) :: rest) (acc, evs) =
          cleanupLoop now rest ((destroySession acc k).1, evs ++ (destroySession acc k).2)
        from by simp [cleanupLoop, hr]]
      rw [ih _ _ _ h.2, destroySession_preserves _ _ _ h.1]
    · rw [show cleanupLoop now ((k, s0) :: rest) (acc, evs) =
          cleanupLoop now rest (acc, evs) from by simp [cleanupLoop, hr]]
      exact ih _ _ _ h.2

theorem cleanupLoop_lookup (now : Nat) :
    ∀ (entries : List (String × UserSession)) (acc : ManagerState) (evs : List SmEvent)
      (sid : String) (sess : UserSession),
      (entries.map Prod.fst).Nodup →
      (mapKeys acc.sessions).Nodup →
      mapGet acc.sessions sid = some sess →
      ((sid, sess) ∈ entries ∨ sid ∉ entries.map Prod.fst) →
      mapGet (cleanupLoop now entries (acc, evs)).1.sessions sid =
        (if (sid, sess) ∈ entries ∧ reapDue now sess then none else some sess) := by
  intro entries
  induction entries with
  | nil =>
    intro acc evs sid sess hE hA hacc hmem
    simp only [cleanupLoop, List.not_mem_nil, false_and, if_false]
    exact hacc
  | cons hd rest ih =>
    intro acc evs sid sess hE hA hacc hmem
    obtain ⟨k, s0⟩ := hd
    simp only [List.map_cons, List.nodup_cons] at hE
    by_cases hksid : k = sid
    · subst hksid
      -- the head entry is the session under scrutiny
      have hsess0 : sess = s0 := by
        rcases hmem with hm | hm
        · rcases List.mem_cons.mp hm with heq | hin
          · exact congrArg Prod.snd heq
          · exact absurd (List.mem_map.mpr ⟨(k, sess), hin, rfl⟩) hE.1
        · exact absurd (List.mem_map.mpr ⟨(k, s0), List.mem_cons_self _ _, rfl⟩) hm
      subst hsess0
      by_cases hr : reapDue now sess
      · rw [show cleanupLoop now ((k, sess) :: rest) (acc, evs) =
            cleanupLoop now rest ((destroySession acc k).1, evs ++ (destroySession acc k).2)
          from by simp [cleanupLoop, hr]]
        rw [cleanupLoop_preserves now rest _ _ _ hE.1, destroySession_lookup_self _ _ hA]
        rw [if_pos ⟨List.mem_cons_self _ _, hr⟩]
      · rw [show cleanupLoop now ((k, sess) :: rest) (acc, evs) =
            cleanupLoop now rest (acc, evs) from by simp [cleanupLoop, hr]]
        rw [cleanupLoop_preserves now rest _ _ _ hE.1, hacc,
          if_neg (fun hc => hr hc.2)]
    · -- the head entry concerns a different session
      have hmem2 : (sid, sess) ∈ rest ∨ sid ∉ rest.map Prod.fst := by
        rcases hmem with hm | hm
        · rcases List.mem_cons.mp hm with heq | hin
          · exact absurd (congrArg Prod.fst heq).symm hksid
          · exact Or.inl hin
        · simp only [List.map_cons, List.mem_cons, not_or] at hm
          exact Or.inr hm.2
      have hcond : ((sid, sess) ∈ (k, s0) :: rest ∧ reapDue now sess) =
          ((sid, sess) ∈ rest ∧ reapDue now sess) := by
        apply propext
        constructor
        · rintro ⟨hm, hrd⟩
          rcases List.mem_cons.mp hm with heq | hin
          · exact absurd (congrArg Prod.fst heq).symm hksid
          · exact ⟨hin, hrd⟩
        · rintro ⟨hm, hrd⟩
          exact ⟨List.mem_cons_of_mem _ hm, hrd⟩
      by_cases hr : reapDue now s0
      · rw [show cleanupLoop now ((k, s0) :: rest) (acc, evs) =
            cleanupLoop now rest ((destroySession acc k).1, evs ++ (destroySession acc k).2)
          from by simp [cleanupLoop, hr]]
        simp only [hcond]
        exact ih _ _ _ _ hE.2 (destroySession_nodup _ _ hA)
          (by rw [destroySession_preserves _ _ _ (fun h => hksid h.symm)]; exact hacc) hmem2
      · rw [show cleanupLoop now ((k, s0) :: rest) (acc, evs) =
            cleanupLoop now rest (acc, evs) from by simp [cleanupLoop, hr]]
        simp only [hcond]
        exact ih _ _ _ _ hE.2 hA hacc hmem2

/-!
## Claims
-/

/-- C1: in any reachable client state — hence under every interleaving of
sends and receives — a received response whose `id` equals the correlation
id of an outstanding `PendingCall` resolves exactly that call (one
`resolved` event, for its token, and no other event), removes it from the
pending map, and leaves every other pending entry untouched; the outcome
depends only on the id, not on the entry's position (send order). -/
theorem claim_C1_response_correlation (opts : ClientOptions) (s : ClientState)
    (msg : Json) (i : String) (tok : Nat)
    (hN : (mapKeys s.pending).Nodup)
    (hmem : (i, tok) ∈ s.pending)
    (hid : msg.getField "id" = some (.str i))
    (hre : msg.hasField "result" = true ∨ msg.hasField "error" = true) :
    dispatchParsed opts s msg =
      ({ s with pending := mapDelete s.pending i }, [.resolved tok msg])
    ∧ mapGet (mapDelete s.pending i) i = none
    ∧ (∀ j, j ≠ i → mapGet (mapDelete s.pending i) j = mapGet s.pending j) := by
  have hhas : msg.hasField "id" = true := by
    simp [Json.hasField, hid]
  have hget : mapGet s.pending i = some tok := mapGet_of_mem hN hmem
  refine ⟨?_, mapGet_mapDelete_self hN, fun j hj => mapGet_mapDelete_ne _ hj⟩
  have hcond : (msg.hasField "id" && (msg.hasField "result" || msg.hasField "error")) = true := by
    rcases hre with h | h <;> simp [hhas, h]
  simp only [dispatchParsed, hcond, hid, hget]
  rfl

/-- Witness for C1 at a concrete state: a response with id `"b"` resolves
the pending call with token 1 and leaves the entry at `"a"` alone. -/
theorem claim_C1_witness :
    dispatchParsed ⟨true, false, false⟩
      { ClientState.new with pending := [("a", 0), ("b", 1)] }
      (.obj [("id", .str "b"), ("result", .null)]) =
      ({ ClientState.new with pending := [("a", 0)] }, [.resolved 1
        (.obj [("id", .str "b"), ("result", .null)])]) :=
  (claim_C1_response_correlation ⟨true, false, false⟩
    { ClientState.new with pending := [("a", 0), ("b", 1)] }
    (.obj [("id", .str "b"), ("result", .null)]) "b" 1
    (by simp [mapKeys]) (by simp) (by rfl) (Or.inl (by rfl))).1

/-- C2 as stated — splitting the byte stream at **arbitrary** offsets —
fails on the code: each chunk is decoded by itself
(`this.buffer += chunk.toString('utf8')`, stdioClient.ts line 67), so
splitting the five bytes of `"\u{e9}"` plus newline (34, 195, 169, 34, 10)
between the two bytes of the two-byte character yields the frame
`"\u{fffd}\u{fffd}"` instead of `"\u{e9}"`: different frames, and different
parsed messages for a parse function that reads the frame. -/
theorem claim_C2_byte_split_counterexample :
    feedChunksBytes [] [[34, 195], [169, 34, 10]] ≠
      processChunkBytes [] ([[34, 195], [169, 34, 10]] : List (List Nat)).flatten
    ∧ parsedMessages (feedChunksBytes [] [[34, 195], [169, 34, 10]]).1
          (fun f => some (.str (String.mk f))) ≠
        parsedMessages
          (processChunkBytes [] ([[34, 195], [169, 34, 10]] : List (List Nat)).flatten).1
          (fun f => some (.str (String.mk f))) := by
  constructor
  · decide
  · intro h
    have h0 : ([Json.str "\"\uFFFD\uFFFD\""] : List Json) = [Json.str "\"é\""] := h
    injection h0 with h1 h2
    injection h1 with h3
    exact absurd h3 (by decide)

/-- C2 (amended): delivering a byte sequence in chunks split at character
boundaries — each chunk a well-formed UTF-8 encoding — through the client's
read path yields exactly the frames, final buffer (the trailing partial
line carried over), and parsed logical messages of a single delivery of the
whole sequence, for every parse function. -/
theorem claim_C2_charBoundary_chunking (charChunks : List (List Char)) :
    feedChunksBytes [] (charChunks.map utf8Encode) =
      processChunkBytes [] (utf8Encode charChunks.flatten)
    ∧ ∀ parse : List Char → Option Json,
        parsedMessages (feedChunksBytes [] (charChunks.map utf8Encode)).1 parse =
          parsedMessages (processChunkBytes [] (utf8Encode charChunks.flatten)).1
            parse := by
  have hmap : (charChunks.map utf8Encode).map utf8Decode = charChunks := by
    induction charChunks with
    | nil => rfl
    | cons a t ih => simp [utf8Decode_encode, ih]
  have key : feedChunksBytes [] (charChunks.map utf8Encode) =
      processChunkBytes [] (utf8Encode charChunks.flatten) := by
    rw [feedChunksBytes, hmap, processChunkBytes, utf8Decode_encode,
      feedChunks_eq_of_no_newline (List.not_mem_nil _) charChunks]
  exact ⟨key, fun parse => by rw [key]⟩

/-- C8: `listTools()` before `initialize()` returns the empty catalog (it
is a pure snapshot read — it cannot block); after `initialize()` completes
a successful `tools/list` exchange it returns exactly the announced set;
and a later `tools/list` notification replaces the catalog with the newest
announced set regardless of the previous catalog — no merging. -/
theorem claim_C8_listTools_lifecycle :
    listTools ClientState.new = Json.arr []
    ∧ (∀ (s : ClientState) (result ts : Json),
        result.getField "tools" = some ts → ts ≠ .null →
        listTools (finishToolFetch s (some result)) = ts)
    ∧ (∀ (opts : ClientOptions) (s : ClientState) (msg p ts : Json),
        msg.hasField "method" = true → msg.hasField "id" = false →
        msg.hasField "result" = false → msg.hasField "error" = false →
        msg.methodIs "tools/list" = true →
        msg.getField "params" = some p → p.getField "tools" = some ts →
        ts ≠ .null →
        listTools (dispatchParsed opts s msg).1 = ts) := by
  refine ⟨rfl, ?_, ?_⟩
  · intro s result ts hts hnn
    simp only [listTools, finishToolFetch, Option.bind, hts]
    cases ts <;> simp [coalesceTools]
    exact absurd rfl hnn
  · intro opts s msg p ts hm hid hres herr hml hp hts hnn
    simp only [dispatchParsed, hm, hid, hres, herr, hml, listTools]
    simp only [Bool.false_and, Bool.and_false, Bool.false_or, Bool.or_false,
      Bool.and_true, Bool.true_and, Bool.not_false, if_false, if_true,
      Bool.false_eq_true, ite_false, ite_true]
    simp only [hp, Option.bind, hts]
    cases ts <;> simp [coalesceTools]
    exact absurd rfl hnn

/-- Witness for C8's conditional parts at concrete inputs: a successful
tool fetch announcing one tool, then a notification announcing another. -/
theorem claim_C8_witness :
    listTools (finishToolFetch ClientState.new
        (some (.obj [("tools", .arr [.str "t1"])]))) = .arr [.str "t1"]
    ∧ listTools (dispatchParsed ⟨true, false, false⟩ ClientState.new
        (.obj [("method", .str "tools/list"),
               ("params", .obj [("tools", .arr [.str "t2"])])])).1 = .arr [.str "t2"] :=
  ⟨(claim_C8_listTools_lifecycle).2.1 ClientState.new
      (.obj [("tools", .arr [.str "t1"])]) (.arr [.str "t1"]) (by rfl) (by simp),
   (claim_C8_listTools_lifecycle).2.2 ⟨true, false, false⟩ ClientState.new
      (.obj [("method", .str "tools/list"),
             ("params", .obj [("tools", .arr [.str "t2"])])])
      (.obj [("tools", .arr [.str "t2"])]) (.arr [.str "t2"])
      (by rfl) (by rfl) (by rfl) (by rfl) (by rfl) (by rfl) (by rfl) (by simp)⟩

/-- C9: `callTool(name, args)` fails with `NotRunning` when no child is
attached; otherwise it writes exactly one `tools/call` request whose params
are `{name, arguments: args}` and registers a pending call; its
continuation surfaces a response error object as a `RemoteError` carrying
the child's code and message, and otherwise returns the child's `result`
member verbatim. -/
theorem claim_C9_callTool (s : ClientState) (name : String) (args res e : Json)
    (c : Int) (emsg : String) :
    (s.childRunning = false → callTool s name args = (s, [], .error .notRunning))
    ∧ (s.childRunning = true →
        callTool s name args =
          ({ s with
              pending := mapSet s.pending (freshId s) s.nextId,
              nextId := s.nextId + 1 },
           [.request (freshId s) "tools/call"
              (some (.obj [("name", .str name), ("arguments", args)]))],
           .ok (freshId s)))
    ∧ (res.getField "error" = some e → e.getField "code" = some (.num c) →
        e.getField "message" = some (.str emsg) → e.truthy = true →
        completeCall res = .error (.remoteError (toString c) emsg))
    ∧ (res.getField "error" = none → completeCall res = .ok (res.getField "result")) := by
  refine ⟨?_, ?_, ?_, ?_⟩
  · intro h
    simp [callTool, sendRequestStep, h]
  · intro h
    simp [callTool, sendRequestStep, h, callToolParams]
  · intro he hc hm ht
    simp [completeCall, he, ht, hc, hm, displayOpt, Json.display]
  · intro he
    simp [completeCall, he]

/-- Witness for C9 at concrete inputs: the not-running rejection, the
written request frame, the remote-error continuation and the verbatim
result continuation. -/
theorem claim_C9_witness :
    callTool ClientState.new "list-x" (.obj []) =
      (ClientState.new, [], .error .notRunning)
    ∧ callTool { ClientState.new with childRunning := true } "list-x" (.obj []) =
      ({ ClientState.new with
          childRunning := true
          pending := [("uuid-0", 0)]
          nextId := 1 },
       [.request "uuid-0" "tools/call"
          (some (.obj [("name", .str "list-x"), ("arguments", .obj [])]))],
       .ok "uuid-0")
    ∧ completeCall (.obj [("id", .str "u"),
        ("error", .obj [("code", .num 7), ("message", .str "boom")])]) =
      .error (.remoteError "7" "boom")
    ∧ completeCall (.obj [("id", .str "u"), ("result", .num 3)]) =
      .ok (some (.num 3)) :=
  ⟨(claim_C9_callTool ClientState.new "list-x" (.obj []) .null .null 0 "").1 rfl,
   (claim_C9_callTool { ClientState.new with childRunning := true } "list-x"
      (.obj []) .null .null 0 "").2.1 rfl,
   (claim_C9_callTool ClientState.new "" (.obj [])
      (.obj [("id", .str "u"),
        ("error", .obj [("code", .num 7), ("message", .str "boom")])])
      (.obj [("code", .num 7), ("message", .str "boom")]) 7 "boom").2.2.1
      (by rfl) (by rfl) (by rfl) (by rfl),
   (claim_C9_callTool ClientState.new "" (.obj [])
      (.obj [("id", .str "u"), ("result", .num 3)]) .null 0 "").2.2.2 (by rfl)⟩

/-- C10: an inbound request (a parsed message with a `method` and an `id`)
whose method is neither `prompts/get` with a registered prompt callback nor
`resources/read` with a registered resource callback is answered at once —
while a child is attached — by exactly one JSON-RPC error response carrying
the same id, code -32601, and the message `Method not found: ` followed by
the method name. -/
theorem claim_C10_method_not_found (opts : ClientOptions) (s : ClientState)
    (msg rid : Json) (m : String)
    (hchild : s.childRunning = true)
    (hmeth : msg.getField "method" = some (.str m))
    (hid : msg.getField "id" = some rid)
    (hres : msg.hasField "result" = false)
    (herr : msg.hasField "error" = false)
    (hnp : m = "prompts/get" → opts.onPromptRegistered = false)
    (hnr : m = "resources/read" → opts.onResourceRegistered = false) :
    dispatchParsed opts s msg =
      (s, [.sent (.response rid none
        (some ⟨-32601, "Method not found: " ++ m⟩))]) := by
  have hhasm : msg.hasField "method" = true := by simp [Json.hasField, hmeth]
  have hhasi : msg.hasField "id" = true := by simp [Json.hasField, hid]
  have hpg : (msg.methodIs "prompts/get" && opts.onPromptRegistered) = false := by
    simp only [Json.methodIs, hmeth]
    by_cases hm : m = "prompts/get"
    · simp [hm, hnp hm]
    · simp [hm]
  have hrr : (msg.methodIs "resources/read" && opts.onResourceRegistered) = false := by
    simp only [Json.methodIs, hmeth]
    by_cases hm : m = "resources/read"
    · simp [hm, hnr hm]
    · simp [hm]
  simp only [dispatchParsed, hhasm, hhasi, hres, herr, handleServerRequest, hpg, hrr,
    sendResponseStep, hchild, hid, hmeth, displayOpt, Json.display]
  simp

/-- Witness for C10 at a concrete input: an unknown method `foo/bar` with
id `"9"` gets the -32601 reply. -/
theorem claim_C10_witness :
    dispatchParsed ⟨true, true, true⟩
      { ClientState.new with childRunning := true }
      (.obj [("method", .str "foo/bar"), ("id", .str "9")]) =
      ({ ClientState.new with childRunning := true },
       [.sent (.response (.str "9") none
          (some ⟨-32601, "Method not found: foo/bar"⟩))]) :=
  claim_C10_method_not_found ⟨true, true, true⟩
    { ClientState.new with childRunning := true }
    (.obj [("method", .str "foo/bar"), ("id", .str "9")]) (.str "9") "foo/bar"
    rfl (by rfl) (by rfl) (by rfl) (by rfl)
    (fun h => absurd h (by decide)) (fun h => absurd h (by decide))

/-- C3: a prompt issued for a session whose connection set is empty fails
at once with `NoClients`: no announcement is broadcast, the freshly set
timeout is cleared (the active-timer set is unchanged), and no
`PendingPrompt` entry for the prompt remains in the session's map. -/
theorem claim_C3_noClients_immediate (m : ManagerState) (sid : String) (now : Nat)
    (sess : UserSession)
    (hsess : mapGet m.sessions sid = some sess)
    (hconns : sess.wsConnections = [])
    (hN : (mapKeys sess.promptResolvers).Nodup)
    (hfresh : sess.nextHandle ∉ sess.activeTimers) :
    handlePromptForSession m sid now =
      (⟨mapSet m.sessions sid
        { sess with
          promptResolvers := mapDelete sess.promptResolvers (promptIdOf sid now),
          nextHandle := sess.nextHandle + 1 }⟩,
       [], .error .noClients)
    ∧ mapGet (mapDelete sess.promptResolvers (promptIdOf sid now))
        (promptIdOf sid now) = none := by
  refine ⟨?_, mapGet_mapDelete_self hN⟩
  have herase : (sess.activeTimers ++ [sess.nextHandle]).erase sess.nextHandle =
      sess.activeTimers := by
    rw [List.erase_append_right _ hfresh, List.erase_cons_head, List.append_nil]
  unfold handlePromptForSession
  simp only [hsess, hconns, List.filter_nil, List.map_nil, List.isEmpty_nil, if_true,
    herase, mapDelete_mapSet _ hN]

/-- Witness for C3 at a concrete state: one stale resolver under another id
survives untouched, the result is `NoClients`, and the prompt map holds no
entry for the new prompt id. -/
theorem claim_C3_witness :
    handlePromptForSession ⟨[("s",
        ⟨true, [], 0, [("old", ⟨3, 3⟩)], [3], 4, none⟩)]⟩ "s" 42 =
      (⟨[("s", ⟨true, [], 0, [("old", ⟨3, 3⟩)], [3], 5, none⟩)]⟩,
       [], .error .noClients)
    ∧ mapGet (mapDelete [("old", (⟨3, 3⟩ : PromptResolver))] (promptIdOf "s" 42))
        (promptIdOf "s" 42) = none :=
  claim_C3_noClients_immediate ⟨[("s", ⟨true, [], 0, [("old", ⟨3, 3⟩)], [3], 4, none⟩)]⟩
    "s" 42 ⟨true, [], 0, [("old", ⟨3, 3⟩)], [3], 4, none⟩
    (by rfl) rfl (by simp [mapKeys]) (by decide)

/-- C4: the first response for a registered prompt id removes the
`PendingPrompt`, cancels its timeout and resolves its continuation (exactly
one `promptResolvedTo` event); a second response carrying the same prompt
id afterwards is silently ignored — identical state, no events. -/
theorem claim_C4_first_resolution_wins (m : ManagerState) (sid pid : String)
    (resp1 resp2 : Json) (sess : UserSession) (res : PromptResolver)
    (hsess : mapGet m.sessions sid = some sess)
    (hN : (mapKeys sess.promptResolvers).Nodup)
    (hres : mapGet sess.promptResolvers pid = some res) :
    handlePromptResponse m sid pid resp1 =
      (⟨mapSet m.sessions sid
        { sess with
          activeTimers := sess.activeTimers.erase res.timeoutHandle,
          promptResolvers := mapDelete sess.promptResolvers pid }⟩,
       [.promptResolvedTo res.token resp1])
    ∧ handlePromptResponse (handlePromptResponse m sid pid resp1).1 sid pid resp2 =
        ((handlePromptResponse m sid pid resp1).1, []) := by
  have h1 : handlePromptResponse m sid pid resp1 =
      (⟨mapSet m.sessions sid
        { sess with
          activeTimers := sess.activeTimers.erase res.timeoutHandle,
          promptResolvers := mapDelete sess.promptResolvers pid }⟩,
       [.promptResolvedTo res.token resp1]) := by
    unfold handlePromptResponse
    simp only [hsess, hres]
  refine ⟨h1, ?_⟩
  rw [h1]
  unfold handlePromptResponse
  simp only [mapGet_mapSet_self, mapGet_mapDelete_self hN]

/-- Witness for C4 at a concrete state: the first response resolves token
7, the second response for the same id changes nothing and emits nothing. -/
theorem claim_C4_witness :
    handlePromptResponse ⟨[("s", ⟨true, [], 0, [("s-1", ⟨7, 9⟩)], [9], 10, none⟩)]⟩
        "s" "s-1" (.str "first") =
      (⟨[("s", ⟨true, [], 0, [], [], 10, none⟩)]⟩, [.promptResolvedTo 7 (.str "first")])
    ∧ handlePromptResponse
        (handlePromptResponse ⟨[("s", ⟨true, [], 0, [("s-1", ⟨7, 9⟩)], [9], 10, none⟩)]⟩
          "s" "s-1" (.str "first")).1 "s" "s-1" (.str "second") =
        ((handlePromptResponse ⟨[("s", ⟨true, [], 0, [("s-1", ⟨7, 9⟩)], [9], 10, none⟩)]⟩
          "s" "s-1" (.str "first")).1, []) :=
  claim_C4_first_resolution_wins ⟨[("s", ⟨true, [], 0, [("s-1", ⟨7, 9⟩)], [9], 10, none⟩)]⟩
    "s" "s-1" (.str "first") (.str "second")
    ⟨true, [], 0, [("s-1", ⟨7, 9⟩)], [9], 10, none⟩ ⟨7, 9⟩
    (by rfl) (by simp [mapKeys]) (by rfl)

/-- C5: the idle reaper destroys a session exactly when its connection set
is empty and its idle duration strictly exceeds `IDLE_TIMEOUT`; in
particular a session with at least one live connection survives every
sweep, however long idle. -/
theorem claim_C5_idle_reaper (m : ManagerState) (sid : String) (now : Nat)
    (sess : UserSession)
    (hN : (mapKeys m.sessions).Nodup)
    (hsess : mapGet m.sessions sid = some sess) :
    mapGet (cleanupIdleSessions m now).1.sessions sid =
      (if IDLE_TIMEOUT < now - sess.lastActivity ∧ sess.wsConnections = []
       then none else some sess) := by
  have hmem := mapGet_eq_some_mem hsess
  have h := cleanupLoop_lookup now m.sessions m [] sid sess hN hN hsess (Or.inl hmem)
  rw [show cleanupIdleSessions m now = cleanupLoop now m.sessions (m, []) from rfl, h]
  by_cases hc : IDLE_TIMEOUT < now - sess.lastActivity ∧ sess.wsConnections = []
  · have hrd : reapDue now sess = true := by
      simp [reapDue, hc.1, hc.2]
    rw [if_pos ⟨hmem, hrd⟩, if_pos hc]
  · have hrd : ¬((sid, sess) ∈ m.sessions ∧ reapDue now sess = true) := by
      rintro ⟨-, hr⟩
      apply hc
      simp only [reapDue, Bool.and_eq_true, decide_eq_true_eq,
        List.isEmpty_iff] at hr
      exact hr
    rw [if_neg hrd, if_neg hc]

/-- Witness for C5 at concrete states: an idle connectionless session is
reaped, while an equally idle session with one live connection survives. -/
theorem claim_C5_witness :
    mapGet (cleanupIdleSessions ⟨[("dead", ⟨true, [], 0, [], [], 0, none⟩),
        ("live", ⟨true, [⟨1, true⟩], 0, [], [], 0, none⟩)]⟩ 1800001).1.sessions "dead"
      = none
    ∧ mapGet (cleanupIdleSessions ⟨[("dead", ⟨true, [], 0, [], [], 0, none⟩),
        ("live", ⟨true, [⟨1, true⟩], 0, [], [], 0, none⟩)]⟩ 1800001).1.sessions "live"
      = some ⟨true, [⟨1, true⟩], 0, [], [], 0, none⟩ := by
  have h1 := claim_C5_idle_reaper ⟨[("dead", ⟨true, [], 0, [], [], 0, none⟩),
      ("live", ⟨true, [⟨1, true⟩], 0, [], [], 0, none⟩)]⟩ "dead" 1800001
      ⟨true, [], 0, [], [], 0, none⟩ (by simp [mapKeys]) (by rfl)
  have h2 := claim_C5_idle_reaper ⟨[("dead", ⟨true, [], 0, [], [], 0, none⟩),
      ("live", ⟨true, [⟨1, true⟩], 0, [], [], 0, none⟩)]⟩ "live" 1800001
      ⟨true, [⟨1, true⟩], 0, [], [], 0, none⟩ (by simp [mapKeys]) (by rfl)
  rw [if_pos (by exact ⟨by decide, rfl⟩)] at h1
  rw [if_neg (by rintro ⟨-, hx⟩; cases hx)] at h2
  exact ⟨h1, h2⟩

/-- C6: with the session present and no client attached, `configure` spawns
exactly once (one client construction, one MCP child, one login child); the
second call observes the attached client and is a pure no-op — the state is
unchanged and its counts are all zero. -/
theorem claim_C6_configure_once (m : ManagerState) (sid : String)
    (cfg cfg2 : PingoneConfig) (sess : UserSession)
    (hsess : mapGet m.sessions sid = some sess)
    (hno : sess.mcpClientPresent = false) :
    configureMcpClient m sid cfg true =
      (⟨mapSet m.sessions sid
        { sess with pingoneConfig := some cfg, mcpClientPresent := true }⟩,
       .ok ⟨1, 1, 1⟩)
    ∧ configureMcpClient (configureMcpClient m sid cfg true).1 sid cfg2 true =
        ((configureMcpClient m sid cfg true).1, .ok ⟨0, 0, 0⟩) := by
  have h1 : configureMcpClient m sid cfg true =
      (⟨mapSet m.sessions sid
        { sess with pingoneConfig := some cfg, mcpClientPresent := true }⟩,
       .ok ⟨1, 1, 1⟩) := by
    unfold configureMcpClient
    simp only [hsess, hno]
    rfl
  refine ⟨h1, ?_⟩
  rw [h1]
  unfold configureMcpClient
  simp only [mapGet_mapSet_self]
  simp

/-- Witness for C6 at a concrete state. -/
theorem claim_C6_witness :
    configureMcpClient ⟨[("s", UserSession.fresh 0)]⟩ "s" ⟨"e1", "c1", "NA", "com"⟩ true =
      (⟨[("s", ⟨true, [], 0, [], [], 0, some ⟨"e1", "c1", "NA", "com"⟩⟩)]⟩, .ok ⟨1, 1, 1⟩)
    ∧ configureMcpClient
        (configureMcpClient ⟨[("s", UserSession.fresh 0)]⟩ "s"
          ⟨"e1", "c1", "NA", "com"⟩ true).1 "s" ⟨"e2", "c2", "EU", "eu"⟩ true =
        ((configureMcpClient ⟨[("s", UserSession.fresh 0)]⟩ "s"
          ⟨"e1", "c1", "NA", "com"⟩ true).1, .ok ⟨0, 0, 0⟩) :=
  claim_C6_configure_once ⟨[("s", UserSession.fresh 0)]⟩ "s"
    ⟨"e1", "c1", "NA", "com"⟩ ⟨"e2", "c2", "EU", "eu"⟩ (UserSession.fresh 0)
    (by rfl) rfl

/-- C7 names the source invariant that prompt ids are unique within a
session; the code derives the id from `Date.now()` alone
(sessionManager.ts line 208), so two prompts issued for session `"s"` in
the same millisecond (here `Date.now()` = 1000, one open connection) both
receive the id `"s-1000"`: two distinct `PendingPrompt`s (tokens 0 and 1)
share one id, and the second registration overwrites the first — only the
resolver with token 1 survives while the first prompt's timeout (handle 0)
is still active. -/
theorem claim_C7_same_millisecond_collision :
    (handlePromptForSession ⟨[("s",
        ⟨true, [⟨0, true⟩], 0, [], [], 0, none⟩)]⟩ "s" 1000).2.2 = .ok "s-1000"
    ∧ (handlePromptForSession (handlePromptForSession ⟨[("s",
        ⟨true, [⟨0, true⟩], 0, [], [], 0, none⟩)]⟩ "s" 1000).1 "s" 1000).2.2 =
        .ok "s-1000"
    ∧ mapGet (handlePromptForSession (handlePromptForSession ⟨[("s",
        ⟨true, [⟨0, true⟩], 0, [], [], 0, none⟩)]⟩ "s" 1000).1 "s" 1000).1.sessions "s"
      = some ⟨true, [⟨0, true⟩], 0, [("s-1000", ⟨1, 1⟩)], [0, 1], 2, none⟩ :=
  ⟨rfl, rfl, rfl⟩

end OneFacile
